import Mathlib

/-!
# Verification of the dithering engine (`dither.py`)

Shallow embedding of the palette nearest-match operations and the four
dither strategies of `dither.py`.

Modelling conventions:
* a color is an exact integer triple `ℤ × ℤ × ℤ` (numpy `int32` values in the
  program stay far below the overflow range for the inputs of interest, so
  arithmetic is modelled exactly);
* the error buffer holds exact rational triples `ℚ × ℚ × ℚ` (the program uses
  IEEE float64, which is exact on the dyadic values produced by the `/16`
  weights, in the value range of interest);
* a pixel grid is a total function `ℕ → ℕ → Color` together with explicit
  `width`/`height` parameters (the program reads them from `image.shape`);
  cells outside the `width × height` window are irrelevant padding;
* Python loops become structural recursion over the index list
  `List.range`, mutation becomes functional update, and code paths that raise
  (`RuntimeError`, reading an unbound variable) become `Option.none`.
-/

abbrev Color := ℤ × ℤ × ℤ

abbrev QColor := ℚ × ℚ × ℚ

def toQ (c : Color) : QColor := ((c.1 : ℚ), (c.2.1 : ℚ), (c.2.2 : ℚ))

def addQ (a b : QColor) : QColor := (a.1 + b.1, a.2.1 + b.2.1, a.2.2 + b.2.2)

def subQ (a b : QColor) : QColor := (a.1 - b.1, a.2.1 - b.2.1, a.2.2 - b.2.2)

def scaleQ (q : ℚ) (a : QColor) : QColor := (q * a.1, q * a.2.1, q * a.2.2)

def zeroQ : QColor := ((0 : ℚ), (0 : ℚ), (0 : ℚ))

/-- `np.sum(np.square(newcolor - othercolor))`: squared Euclidean distance
summed over the three channels. -/
def qdist (a b : QColor) : ℚ :=
  (a.1 - b.1) ^ 2 + (a.2.1 - b.2.1) ^ 2 + (a.2.2 - b.2.2) ^ 2

/-- `isin(item, list)` from `dither.py`: linear scan with `np.array_equal`,
i.e. value equality of the triples. -/
def isin (item : Color) : List Color → Bool
  | [] => false
  | listitem :: rest => if item = listitem then true else isin item rest

/-- The strict-improvement search loop shared by `getClosest` (distance
`qdist`) and the per-channel shade search (distance `|shade - channel|`).
`none` as accumulator stands for Python's initial
`bestdist = inf` / unbound `bestcolor`: the first scanned element always
wins against it. -/
def bestLoop {α : Type} (f : α → ℚ) : List α → Option (ℚ × α) → Option (ℚ × α)
  | [], acc => acc
  | x :: rest, acc =>
    match acc with
    | none => bestLoop f rest (some (f x, x))
    | some (bd, bc) =>
      if f x < bd then bestLoop f rest (some (f x, x))
      else bestLoop f rest (some (bd, bc))

/-- `ColorScheme.getClosest`.  Returns `none` exactly when the palette is
empty (where the Python code would raise `NameError` on the unbound
`bestcolor`); the `ColorScheme` constructor forbids that case. -/
def getClosest (colors : List Color) (othercolor : QColor) : Option Color :=
  (bestLoop (fun newcolor => qdist (toQ newcolor) othercolor) colors none).map Prod.snd

/-- The loop of `ColorScheme.getClosestWithExclusion`: identical to
`bestLoop`, except entries with `isin newcolor notcolors` are skipped
(`continue`). -/
def exclLoop (othercolor : QColor) (notcolors : List Color) :
    List Color → Option (ℚ × Color) → Option (ℚ × Color)
  | [], acc => acc
  | newcolor :: rest, acc =>
    if isin newcolor notcolors then exclLoop othercolor notcolors rest acc
    else
      match acc with
      | none =>
        exclLoop othercolor notcolors rest (some (qdist (toQ newcolor) othercolor, newcolor))
      | some (bd, bc) =>
        if qdist (toQ newcolor) othercolor < bd then
          exclLoop othercolor notcolors rest (some (qdist (toQ newcolor) othercolor, newcolor))
        else exclLoop othercolor notcolors rest (some (bd, bc))

/-- `ColorScheme.getClosestWithExclusion`; `none` is the
`RuntimeError` raised when every palette entry is excluded
(`bestcolor is None`). -/
def getClosestWithExclusion (colors : List Color) (othercolor : QColor)
    (notcolors : List Color) : Option Color :=
  (exclLoop othercolor notcolors colors none).map Prod.snd

/-- The palette expansion in `UniformColorScheme.__init__`: the triple nested
loop over shades, `shadeR` outermost, then `shadeG`, then `shadeB`. -/
def uniformColors (shades : List ℤ) : List Color :=
  shades.flatMap fun shadeR =>
    shades.flatMap fun shadeG =>
      shades.map fun shadeB => (shadeR, shadeG, shadeB)

/-- One channel of `UniformColorScheme.getClosest`: scan the shades keeping
the one with strictly smaller `abs(newshade - othercolor[i])`.  The `getD 0`
mirrors `bestcolor = np.zeros(3)`: a channel that is never assigned (empty
shade list, forbidden by the constructor) stays `0`. -/
def pickShade (shades : List ℤ) (channel : ℚ) : ℤ :=
  ((bestLoop (fun (newshade : ℤ) => |(newshade : ℚ) - channel|) shades none).map Prod.snd).getD 0

/-- `UniformColorScheme.getClosest`: the three channels are matched
independently. -/
def uniformGetClosest (shades : List ℤ) (othercolor : QColor) : Color :=
  (pickShade shades othercolor.1, pickShade shades othercolor.2.1,
    pickShade shades othercolor.2.2)

abbrev Grid := ℕ → ℕ → Color

abbrev ErrGrid := ℕ → ℕ → QColor

/-- Functional update of one cell of a two-dimensional buffer. -/
def update2 {α : Type} (g : ℕ → ℕ → α) (i j : ℕ) (v : α) : ℕ → ℕ → α :=
  fun x y => if x = i ∧ y = j then v else g x y

/-- The mutable state of an error-diffusion run: the output image being
filled in (`newimage`, `np.empty`, modelled with an all-zero initial value:
cells are written before ever being read) and the error buffer
(`np.zeros`). -/
structure DState where
  newimage : Grid
  error : ErrGrid

def initState : DState := ⟨fun _ _ => (0, 0, 0), fun _ _ => zeroQ⟩

/-- The body of the inner `for i in range(width)` loop of
`dither_floyd_steinberg` (`dither.py` lines 207-225), transcribed
clause for clause: error-adjusted color, exclusion list built from the left
and top neighbors of the *output* image, exclusion-aware palette lookup, and
the four guarded error-buffer writes (note: the three `/16`-weighted writes
other than the `7/16` one go to row `j-1`, exactly as in the source). -/
def fsProcessPixel (colorscheme : List Color) (width : ℕ) (image : Grid)
    (j i : ℕ) (st : DState) : Option DState :=
  let color := addQ (toQ (image i j)) (st.error i j)
  let excludedcolors :=
    (if 1 ≤ i then [st.newimage (i - 1) j] else []) ++
      (if 1 ≤ j then [st.newimage i (j - 1)] else [])
  match getClosestWithExclusion colorscheme color excludedcolors with
  | none => none
  | some newcolor =>
    let newimage := update2 st.newimage i j newcolor
    let extracolor := subQ color (toQ newcolor)
    let e1 := if i + 1 < width then
        update2 st.error (i + 1) j (addQ (st.error (i + 1) j) (scaleQ (7/16) extracolor))
      else st.error
    let e2 := if 1 ≤ i ∧ 1 ≤ j then
        update2 e1 (i - 1) (j - 1) (addQ (e1 (i - 1) (j - 1)) (scaleQ (3/16) extracolor))
      else e1
    let e3 := if 1 ≤ j then
        update2 e2 i (j - 1) (addQ (e2 i (j - 1)) (scaleQ (5/16) extracolor))
      else e2
    let e4 := if i + 1 < width ∧ 1 ≤ j then
        update2 e3 (i + 1) (j - 1) (addQ (e3 (i + 1) (j - 1)) (scaleQ (1/16) extracolor))
      else e3
    some ⟨newimage, e4⟩

/-- The inner column loop of `dither_floyd_steinberg`. -/
def fsLoopRow (colorscheme : List Color) (width : ℕ) (image : Grid) (j : ℕ) :
    List ℕ → DState → Option DState
  | [], st => some st
  | i :: rest, st =>
    match fsProcessPixel colorscheme width image j i st with
    | none => none
    | some st' => fsLoopRow colorscheme width image j rest st'

/-- The outer row loop of `dither_floyd_steinberg`. -/
def fsLoopRows (colorscheme : List Color) (width : ℕ) (image : Grid) :
    List ℕ → DState → Option DState
  | [], st => some st
  | j :: rest, st =>
    match fsLoopRow colorscheme width image j (List.range width) st with
    | none => none
    | some st' => fsLoopRows colorscheme width image rest st'

/-- `dither_floyd_steinberg(image, colorscheme, verbose)`.  The `verbose`
flag only guards `print` calls in the source, so it is an unused parameter
here. -/
def dither_floyd_steinberg (image : Grid) (width height : ℕ)
    (colorscheme : List Color) (verbose : Bool) : Option Grid :=
  (fsLoopRows colorscheme width image (List.range height) initState).map DState.newimage

/-- The body of the inner loop of `dither_no_touch` (`dither.py` lines
239-257); the source text is identical to that of `dither_floyd_steinberg`,
and so is this transcription. -/
def ntProcessPixel (colorscheme : List Color) (width : ℕ) (image : Grid)
    (j i : ℕ) (st : DState) : Option DState :=
  let color := addQ (toQ (image i j)) (st.error i j)
  let excludedcolors :=
    (if 1 ≤ i then [st.newimage (i - 1) j] else []) ++
      (if 1 ≤ j then [st.newimage i (j - 1)] else [])
  match getClosestWithExclusion colorscheme color excludedcolors with
  | none => none
  | some newcolor =>
    let newimage := update2 st.newimage i j newcolor
    let extracolor := subQ color (toQ newcolor)
    let e1 := if i + 1 < width then
        update2 st.error (i + 1) j (addQ (st.error (i + 1) j) (scaleQ (7/16) extracolor))
      else st.error
    let e2 := if 1 ≤ i ∧ 1 ≤ j then
        update2 e1 (i - 1) (j - 1) (addQ (e1 (i - 1) (j - 1)) (scaleQ (3/16) extracolor))
      else e1
    let e3 := if 1 ≤ j then
        update2 e2 i (j - 1) (addQ (e2 i (j - 1)) (scaleQ (5/16) extracolor))
      else e2
    let e4 := if i + 1 < width ∧ 1 ≤ j then
        update2 e3 (i + 1) (j - 1) (addQ (e3 (i + 1) (j - 1)) (scaleQ (1/16) extracolor))
      else e3
    some ⟨newimage, e4⟩

/-- The inner column loop of `dither_no_touch`. -/
def ntLoopRow (colorscheme : List Color) (width : ℕ) (image : Grid) (j : ℕ) :
    List ℕ → DState → Option DState
  | [], st => some st
  | i :: rest, st =>
    match ntProcessPixel colorscheme width image j i st with
    | none => none
    | some st' => ntLoopRow colorscheme width image j rest st'

/-- The outer row loop of `dither_no_touch`. -/
def ntLoopRows (colorscheme : List Color) (width : ℕ) (image : Grid) :
    List ℕ → DState → Option DState
  | [], st => some st
  | j :: rest, st =>
    match ntLoopRow colorscheme width image j (List.range width) st with
    | none => none
    | some st' => ntLoopRows colorscheme width image rest st'

/-- `dither_no_touch(image, colorscheme, verbose)`. -/
def dither_no_touch (image : Grid) (width height : ℕ)
    (colorscheme : List Color) (verbose : Bool) : Option Grid :=
  (ntLoopRows colorscheme width image (List.range height) initState).map DState.newimage

/-- Comparison variant for the dead-write analysis: the pixel step with only
the `7/16` write to `(i+1, j)`, the three writes into row `j-1` omitted. -/
def roProcessPixel (colorscheme : List Color) (width : ℕ) (image : Grid)
    (j i : ℕ) (st : DState) : Option DState :=
  let color := addQ (toQ (image i j)) (st.error i j)
  let excludedcolors :=
    (if 1 ≤ i then [st.newimage (i - 1) j] else []) ++
      (if 1 ≤ j then [st.newimage i (j - 1)] else [])
  match getClosestWithExclusion colorscheme color excludedcolors with
  | none => none
  | some newcolor =>
    let newimage := update2 st.newimage i j newcolor
    let extracolor := subQ color (toQ newcolor)
    let e1 := if i + 1 < width then
        update2 st.error (i + 1) j (addQ (st.error (i + 1) j) (scaleQ (7/16) extracolor))
      else st.error
    some ⟨newimage, e1⟩

/-- Inner column loop of the right-only variant. -/
def roLoopRow (colorscheme : List Color) (width : ℕ) (image : Grid) (j : ℕ) :
    List ℕ → DState → Option DState
  | [], st => some st
  | i :: rest, st =>
    match roProcessPixel colorscheme width image j i st with
    | none => none
    | some st' => roLoopRow colorscheme width image j rest st'

/-- Outer row loop of the right-only variant. -/
def roLoopRows (colorscheme : List Color) (width : ℕ) (image : Grid) :
    List ℕ → DState → Option DState
  | [], st => some st
  | j :: rest, st =>
    match roLoopRow colorscheme width image j (List.range width) st with
    | none => none
    | some st' => roLoopRows colorscheme width image rest st'

/-- The right-only comparison variant of the diffusion strategies. -/
def dither_right_only (image : Grid) (width height : ℕ)
    (colorscheme : List Color) (verbose : Bool) : Option Grid :=
  (roLoopRows colorscheme width image (List.range height) initState).map DState.newimage

/-- The inner loop body of `dither_closest`: replace the pixel with its
closest palette color, in place. -/
def dcProcessPixel (colorscheme : List Color) (j i : ℕ) (g : Grid) : Option Grid :=
  match getClosest colorscheme (toQ (g i j)) with
  | none => none
  | some newcolor => some (update2 g i j newcolor)

/-- Inner column loop of `dither_closest`. -/
def dcLoopRow (colorscheme : List Color) (j : ℕ) : List ℕ → Grid → Option Grid
  | [], g => some g
  | i :: rest, g =>
    match dcProcessPixel colorscheme j i g with
    | none => none
    | some g' => dcLoopRow colorscheme j rest g'

/-- Outer row loop of `dither_closest`. -/
def dcLoopRows (colorscheme : List Color) (width : ℕ) : List ℕ → Grid → Option Grid
  | [], g => some g
  | j :: rest, g =>
    match dcLoopRow colorscheme j (List.range width) g with
    | none => none
    | some g' => dcLoopRows colorscheme width rest g'

/-- `dither_closest(image, colorscheme, verbose)`. -/
def dither_closest (image : Grid) (width height : ℕ)
    (colorscheme : List Color) (verbose : Bool) : Option Grid :=
  dcLoopRows colorscheme width (List.range height) image

/-- `dither_do_nothing(image, colorscheme, verbose)`: returns the image
unchanged. -/
def dither_do_nothing (image : Grid) (width height : ℕ)
    (colorscheme : List Color) (verbose : Bool) : Grid :=
  image

/-! ## Properties of the search loops -/

lemma isin_iff_mem (item : Color) : ∀ (l : List Color), isin item l = true ↔ item ∈ l := by
  intro l
  induction l with
  | nil => simp [isin]
  | cons x rest ih =>
    by_cases hx : item = x
    · simp [isin, hx]
    · simp [isin, hx, ih]

lemma isin_eq_false_iff (item : Color) (l : List Color) :
    isin item l = false ↔ ¬ item ∈ l := by
  rw [← isin_iff_mem]
  cases isin item l <;> simp

/-- If a list splits at `b` with strictly larger values before and
no smaller values after, then `b` realizes the minimum over the list. -/
lemma split_min {α : Type} (f : α → ℚ) {l l1 l2 : List α} {b : α}
    (hsplit : l = l1 ++ b :: l2)
    (hs : ∀ a ∈ l1, f b < f a) (hns : ∀ a ∈ l2, f b ≤ f a) :
    ∀ a ∈ l, f b ≤ f a := by
  intro a ha
  rw [hsplit] at ha
  rcases List.mem_append.mp ha with h1 | h2
  · exact le_of_lt (hs a h1)
  · rcases List.mem_cons.mp h2 with rfl | h2
    · exact le_refl _
    · exact hns a h2

lemma firstOfSplit_le {α : Type} (f : α → ℚ) {x b : α} {xs l1 l2 : List α}
    (hsplit : x :: xs = l1 ++ b :: l2) (hs : ∀ a ∈ l1, f b < f a) : f b ≤ f x := by
  cases l1 with
  | nil =>
    have hx : x = b := by
      have := hsplit
      simp only [List.nil_append] at this
      exact (List.cons.injEq _ _ _ _ ▸ this).elim (fun h _ => h) |>.symm ▸ rfl
    · rw [hx]
  | cons y t =>
    have hy : y = x := by
      have : x = y := by
        have h := hsplit
        rw [List.cons_append] at h
        exact (List.cons.injEq x xs y (t ++ b :: l2)).mp h |>.1
      exact this.symm
    exact le_of_lt (hs x (hy ▸ List.mem_cons_self y t))

/-- The strict-improvement loop started at `b0` returns the earliest element
of `b0 :: l` attaining the minimum of `f`, witnessed by a split of
`b0 :: l`. -/
lemma bestLoop_some_spec {α : Type} (f : α → ℚ) :
    ∀ (l : List α) (b0 : α), ∃ b l1 l2,
      bestLoop f l (some (f b0, b0)) = some (f b, b) ∧
      b0 :: l = l1 ++ b :: l2 ∧
      (∀ a ∈ l1, f b < f a) ∧ (∀ a ∈ l2, f b ≤ f a) := by
  intro l
  induction l with
  | nil =>
    intro b0
    exact ⟨b0, [], [], rfl, rfl, by simp, by simp⟩
  | cons x xs ih =>
    intro b0
    by_cases hx : f x < f b0
    · obtain ⟨b, l1, l2, heq, hsplit, hs, hns⟩ := ih x
      refine ⟨b, b0 :: l1, l2, ?_, ?_, ?_, hns⟩
      · simpa [bestLoop, hx] using heq
      · rw [List.cons_append, ← hsplit]
      · intro a ha
        rcases List.mem_cons.mp ha with rfl | ha
        · exact lt_of_le_of_lt (firstOfSplit_le f hsplit hs) hx
        · exact hs a ha
    · obtain ⟨b, l1, l2, heq, hsplit, hs, hns⟩ := ih b0
      have hrun : bestLoop f (x :: xs) (some (f b0, b0)) =
          bestLoop f xs (some (f b0, b0)) := by
        simp [bestLoop, hx]
      cases l1 with
      | nil =>
        have hb : b0 = b ∧ xs = l2 := by
          simp only [List.nil_append] at hsplit
          exact ⟨(List.cons.injEq _ _ _ _).mp hsplit |>.1,
                 (List.cons.injEq _ _ _ _).mp hsplit |>.2⟩
        obtain ⟨hb0, hxs⟩ := hb
        refine ⟨b, [], x :: l2, by rw [hrun, heq], by rw [← hb0, ← hxs]; rfl, by simp, ?_⟩
        intro a ha
        rcases List.mem_cons.mp ha with rfl | ha
        · rw [← hb0]; exact not_lt.mp hx
        · exact hns a ha
      | cons y t =>
        have hy : b0 = y ∧ xs = t ++ b :: l2 := by
          rw [List.cons_append] at hsplit
          exact ⟨(List.cons.injEq _ _ _ _).mp hsplit |>.1,
                 (List.cons.injEq _ _ _ _).mp hsplit |>.2⟩
        obtain ⟨hb0, hxs⟩ := hy
        refine ⟨b, b0 :: x :: t, l2, by rw [hrun, heq], ?_, ?_, hns⟩
        · rw [hxs]; simp
        · intro a ha
          have hbb0 : f b < f b0 := hb0 ▸ hs y (List.mem_cons_self y t)
          rcases List.mem_cons.mp ha with rfl | ha
          · exact hbb0
          · rcases List.mem_cons.mp ha with rfl | ha
            · exact lt_of_lt_of_le hbb0 (not_lt.mp hx)
            · exact hs a (by simp [ha])

/-- On a non-empty list, the loop started from the `inf` accumulator returns
the earliest minimizer of `f`. -/
lemma bestLoop_none_spec {α : Type} (f : α → ℚ) (l : List α) (hl : l ≠ []) :
    ∃ b l1 l2,
      bestLoop f l none = some (f b, b) ∧
      l = l1 ++ b :: l2 ∧
      (∀ a ∈ l1, f b < f a) ∧ (∀ a ∈ l2, f b ≤ f a) := by
  cases l with
  | nil => exact absurd rfl hl
  | cons x xs =>
    obtain ⟨b, l1, l2, heq, hsplit, hs, hns⟩ := bestLoop_some_spec f xs x
    exact ⟨b, l1, l2, by simpa [bestLoop] using heq, hsplit, hs, hns⟩

lemma bestLoop_nil_none {α : Type} (f : α → ℚ) : bestLoop f [] none = none := rfl

/-- The earliest minimizer of `f` over a list is unique: two splits with the
strict-before / lax-after property select the same element. -/
lemma firstMin_unique {α : Type} (f : α → ℚ) :
    ∀ (l1 l1' : List α) (b b' : α) (l2 l2' : List α),
      l1 ++ b :: l2 = l1' ++ b' :: l2' →
      (∀ a ∈ l1, f b < f a) → (∀ a ∈ l2, f b ≤ f a) →
      (∀ a ∈ l1', f b' < f a) → (∀ a ∈ l2', f b' ≤ f a) →
      b = b' := by
  intro l1
  induction l1 with
  | nil =>
    intro l1' b b' l2 l2' heq hs hns hs' hns'
    cases l1' with
    | nil =>
      simp only [List.nil_append] at heq
      exact ((List.cons.injEq _ _ _ _).mp heq).1
    | cons y t =>
      simp only [List.nil_append, List.cons_append] at heq
      obtain ⟨hby, hrest⟩ := (List.cons.injEq _ _ _ _).mp heq
      have hb'b : f b' < f b := hby ▸ hs' y (List.mem_cons_self y t)
      have hbb' : f b ≤ f b' := by
        have hmem : b' ∈ l2 := by
          rw [hrest]
          simp
        exact hns b' hmem
      exact absurd hb'b (not_lt.mpr hbb')
  | cons x t ih =>
    intro l1' b b' l2 l2' heq hs hns hs' hns'
    cases l1' with
    | nil =>
      simp only [List.nil_append, List.cons_append] at heq
      obtain ⟨hbx, hrest⟩ := (List.cons.injEq _ _ _ _).mp heq
      have hbb : f b < f b' := hbx ▸ hs x (List.mem_cons_self x t)
      have : f b' ≤ f b := by
        have hmem : b ∈ l2' := by
          rw [← hrest]
          simp
        exact hns' b hmem
      exact absurd hbb (not_lt.mpr this)
    | cons y t' =>
      simp only [List.cons_append] at heq
      obtain ⟨hxy, hrest⟩ := (List.cons.injEq _ _ _ _).mp heq
      exact ih t' b b' l2 l2' hrest
        (fun a ha => hs a (List.mem_cons_of_mem x ha)) hns
        (fun a ha => hs' a (List.mem_cons_of_mem y ha)) hns'

/-- The `continue`-on-excluded loop is the plain loop on the filtered
palette. -/
lemma exclLoop_eq_filter (other : QColor) (excl : List Color) :
    ∀ (l : List Color) (acc : Option (ℚ × Color)),
      exclLoop other excl l acc =
        bestLoop (fun newcolor => qdist (toQ newcolor) other)
          (l.filter fun c => !isin c excl) acc := by
  intro l
  induction l with
  | nil => intro acc; rfl
  | cons x xs ih =>
    intro acc
    by_cases hx : isin x excl
    · simp [exclLoop, hx, List.filter_cons, ih]
    · have hx' : isin x excl = false := by
        cases h : isin x excl
        · rfl
        · exact absurd h hx
      cases acc with
      | none => simp [exclLoop, hx', bestLoop, List.filter_cons, ih]
      | some a =>
        obtain ⟨bd, bc⟩ := a
        by_cases hlt : qdist (toQ x) other < bd
        · simp [exclLoop, hx', bestLoop, List.filter_cons, hlt, ih]
        · simp [exclLoop, hx', bestLoop, List.filter_cons, hlt, ih]

/-- Lift a first-minimum split of the filtered list to a split of the whole
list, with the before/after conditions restricted to elements satisfying the
predicate. -/
lemma filter_split_lift {α : Type} (f : α → ℚ) (pred : α → Bool) :
    ∀ (P m1 : List α) (b : α) (m2 : List α),
      P.filter pred = m1 ++ b :: m2 →
      (∀ a ∈ m1, f b < f a) → (∀ a ∈ m2, f b ≤ f a) →
      ∃ l1 l2, P = l1 ++ b :: l2 ∧
        (∀ p ∈ l1, pred p = true → f b < f p) ∧
        (∀ p ∈ l2, pred p = true → f b ≤ f p) := by
  intro P
  induction P with
  | nil =>
    intro m1 b m2 hfil hs hns
    simp only [List.filter_nil] at hfil
    exact absurd hfil.symm (List.append_ne_nil_of_right_ne_nil m1 (List.cons_ne_nil b m2))
  | cons x P' ih =>
    intro m1 b m2 hfil hs hns
    by_cases hx : pred x
    · rw [List.filter_cons_of_pos hx] at hfil
      cases m1 with
      | nil =>
        simp only [List.nil_append] at hfil
        obtain ⟨hbx, hm2⟩ := (List.cons.injEq _ _ _ _).mp hfil
        refine ⟨[], P', by rw [hbx]; rfl, by simp, ?_⟩
        intro p hp hpred
        have : p ∈ m2 := by
          rw [← hm2]
          exact List.mem_filter.mpr ⟨hp, hpred⟩
        exact hbx ▸ hns p this
      | cons y m1' =>
        simp only [List.cons_append] at hfil
        obtain ⟨hxy, hrest⟩ := (List.cons.injEq _ _ _ _).mp hfil
        obtain ⟨l1, l2, hP, h1, h2⟩ :=
          ih m1' b m2 hrest (fun a ha => hs a (List.mem_cons_of_mem y ha)) hns
        refine ⟨x :: l1, l2, by rw [List.cons_append, hP], ?_, h2⟩
        intro p hp hpred
        rcases List.mem_cons.mp hp with rfl | hp
        · exact hs p (hxy ▸ List.mem_cons_self y m1')
        · exact h1 p hp hpred
    · rw [List.filter_cons_of_neg hx] at hfil
      obtain ⟨l1, l2, hP, h1, h2⟩ := ih m1 b m2 hfil hs hns
      refine ⟨x :: l1, l2, by rw [List.cons_append, hP], ?_, h2⟩
      intro p hp hpred
      rcases List.mem_cons.mp hp with rfl | hp
      · exact absurd hpred hx
      · exact h1 p hp hpred

/-! ## Concrete palettes and images used in witnesses -/

/-- The `blackandwhite` built-in scheme. -/
def palBW : List Color := [(0, 0, 0), (255, 255, 255)]

/-- The `grayscale` built-in scheme. -/
def palGrayscale : List Color := [(0, 0, 0), (120, 120, 120), (255, 255, 255)]

/-- The palette used by the repository's own tests. -/
def palTest : List Color := [(0, 0, 0), (100, 100, 100), (255, 255, 255)]

/-! ## C3 -/

/-- C3: for every color `c` (channels are arbitrary integers, also negative
or above 255) and every non-empty palette `P`, `getClosest` returns (never
fails) an element of `P` minimizing the squared Euclidean channel distance
to `c`, and among the minimizers it returns the earliest palette entry:
every entry strictly before the result is strictly farther, every entry
after it is no closer. -/
theorem getClosest_is_first_min (P : List Color) (c : Color) (hP : P ≠ []) :
    ∃ b l1 l2, getClosest P (toQ c) = some b ∧ b ∈ P ∧
      (∀ p ∈ P, qdist (toQ b) (toQ c) ≤ qdist (toQ p) (toQ c)) ∧
      P = l1 ++ b :: l2 ∧
      (∀ p ∈ l1, qdist (toQ b) (toQ c) < qdist (toQ p) (toQ c)) ∧
      (∀ p ∈ l2, qdist (toQ b) (toQ c) ≤ qdist (toQ p) (toQ c)) := by
  obtain ⟨b, l1, l2, heq, hsplit, hs, hns⟩ :=
    bestLoop_none_spec (fun newcolor => qdist (toQ newcolor) (toQ c)) P hP
  refine ⟨b, l1, l2, ?_, ?_, split_min _ hsplit hs hns, hsplit, hs, hns⟩
  · unfold getClosest
    rw [heq]
    rfl
  · rw [hsplit]
    simp

/-- Witness for C3 at the grayscale palette and the out-of-range color
`(300, -5, 10)`. -/
theorem getClosest_is_first_min_witness :
    ∃ b l1 l2, getClosest palGrayscale (toQ (300, -5, 10)) = some b ∧ b ∈ palGrayscale ∧
      (∀ p ∈ palGrayscale,
        qdist (toQ b) (toQ (300, -5, 10)) ≤ qdist (toQ p) (toQ (300, -5, 10))) ∧
      palGrayscale = l1 ++ b :: l2 ∧
      (∀ p ∈ l1, qdist (toQ b) (toQ (300, -5, 10)) < qdist (toQ p) (toQ (300, -5, 10))) ∧
      (∀ p ∈ l2, qdist (toQ b) (toQ (300, -5, 10)) ≤ qdist (toQ p) (toQ (300, -5, 10))) :=
  getClosest_is_first_min palGrayscale (300, -5, 10) (by decide)

/-! ## C4 -/

/-- C4: exclusion-aware nearest match.  If some palette entry is outside the
exclusion list `E` (in particular whenever `E` is a strict subset of the
palette's values), `getClosestWithExclusion` returns a non-excluded palette
entry minimizing the squared distance among non-excluded entries, earliest
such entry first; if every palette entry is in `E`, it fails (returns
`none`, the `RuntimeError` path). -/
theorem getClosestWithExclusion_spec (P E : List Color) (c : Color) :
    ((∃ p ∈ P, p ∉ E) →
      ∃ b l1 l2, getClosestWithExclusion P (toQ c) E = some b ∧
        b ∈ P ∧ b ∉ E ∧
        (∀ p ∈ P, p ∉ E → qdist (toQ b) (toQ c) ≤ qdist (toQ p) (toQ c)) ∧
        P = l1 ++ b :: l2 ∧
        (∀ p ∈ l1, p ∉ E → qdist (toQ b) (toQ c) < qdist (toQ p) (toQ c)) ∧
        (∀ p ∈ l2, p ∉ E → qdist (toQ b) (toQ c) ≤ qdist (toQ p) (toQ c))) ∧
    ((∀ p ∈ P, p ∈ E) → getClosestWithExclusion P (toQ c) E = none) := by
  constructor
  · rintro ⟨p, hp, hpE⟩
    have hpfil : p ∈ P.filter fun q => !isin q E := by
      refine List.mem_filter.mpr ⟨hp, ?_⟩
      simp [isin_eq_false_iff, hpE]
    obtain ⟨b, m1, m2, heq, hfil, hs, hns⟩ :=
      bestLoop_none_spec (fun newcolor => qdist (toQ newcolor) (toQ c))
        (P.filter fun q => !isin q E) (List.ne_nil_of_mem hpfil)
    have hbfil : b ∈ P.filter fun q => !isin q E := by
      rw [hfil]
      simp
    have hbP : b ∈ P := (List.mem_filter.mp hbfil).1
    have hbE : b ∉ E := by
      have := (List.mem_filter.mp hbfil).2
      simpa [isin_eq_false_iff] using this
    obtain ⟨l1, l2, hP, h1, h2⟩ :=
      filter_split_lift (fun newcolor => qdist (toQ newcolor) (toQ c)) _ P m1 b m2 hfil hs hns
    refine ⟨b, l1, l2, ?_, hbP, hbE, ?_, hP, ?_, ?_⟩
    · unfold getClosestWithExclusion
      rw [exclLoop_eq_filter, heq]
      rfl
    · intro q hq hqE
      have hqfil : q ∈ P.filter fun r => !isin r E := by
        refine List.mem_filter.mpr ⟨hq, ?_⟩
        simp [isin_eq_false_iff, hqE]
      exact split_min _ hfil hs hns q hqfil
    · intro q hq hqE
      exact h1 q hq (by simp [isin_eq_false_iff, hqE])
    · intro q hq hqE
      exact h2 q hq (by simp [isin_eq_false_iff, hqE])
  · intro hall
    have hfil : (P.filter fun q => !isin q E) = [] := by
      rw [List.filter_eq_nil_iff]
      intro a ha
      simp [isin_iff_mem, hall a ha]
    unfold getClosestWithExclusion
    rw [exclLoop_eq_filter, hfil, bestLoop_nil_none]
    rfl

/-- Witness for C4: on the black-and-white palette, excluding black yields
white; excluding both yields the failure value. -/
theorem getClosestWithExclusion_spec_witness :
    (∃ b l1 l2, getClosestWithExclusion palBW (toQ (10, 10, 10)) [(0, 0, 0)] = some b ∧
      b ∈ palBW ∧ b ∉ ([(0, 0, 0)] : List Color) ∧
      (∀ p ∈ palBW, p ∉ ([(0, 0, 0)] : List Color) →
        qdist (toQ b) (toQ (10, 10, 10)) ≤ qdist (toQ p) (toQ (10, 10, 10))) ∧
      palBW = l1 ++ b :: l2 ∧
      (∀ p ∈ l1, p ∉ ([(0, 0, 0)] : List Color) →
        qdist (toQ b) (toQ (10, 10, 10)) < qdist (toQ p) (toQ (10, 10, 10))) ∧
      (∀ p ∈ l2, p ∉ ([(0, 0, 0)] : List Color) →
        qdist (toQ b) (toQ (10, 10, 10)) ≤ qdist (toQ p) (toQ (10, 10, 10)))) ∧
    getClosestWithExclusion palBW (toQ (10, 10, 10)) palBW = none :=
  ⟨(getClosestWithExclusion_spec palBW [(0, 0, 0)] (10, 10, 10)).1 (by decide),
   (getClosestWithExclusion_spec palBW palBW (10, 10, 10)).2 (by decide)⟩

/-! ## C8: the verbosity flag -/

/-- C8: for each of the four strategies, the output with `verbose = true` is
identical to the output with `verbose = false`; in the source the flag only
guards `print` calls and touches no pixel data. -/
theorem verbose_noninterference (image : Grid) (width height : ℕ) (P : List Color) :
    dither_do_nothing image width height P true = dither_do_nothing image width height P false ∧
    dither_closest image width height P true = dither_closest image width height P false ∧
    dither_floyd_steinberg image width height P true =
      dither_floyd_steinberg image width height P false ∧
    dither_no_touch image width height P true = dither_no_touch image width height P false :=
  ⟨rfl, rfl, rfl, rfl⟩

/-! ## C9: `dither_floyd_steinberg` and `dither_no_touch` coincide -/

lemma fsProcessPixel_eq_nt : fsProcessPixel = ntProcessPixel := rfl

lemma fsLoopRow_eq_nt (cs : List Color) (w : ℕ) (image : Grid) (j : ℕ) :
    ∀ (l : List ℕ) (st : DState),
      fsLoopRow cs w image j l st = ntLoopRow cs w image j l st := by
  intro l
  induction l with
  | nil => intro st; rfl
  | cons i rest ih =>
    intro st
    simp only [fsLoopRow, ntLoopRow, fsProcessPixel_eq_nt]
    cases ntProcessPixel cs w image j i st with
    | none => rfl
    | some st' => exact ih st'

lemma fsLoopRows_eq_nt (cs : List Color) (w : ℕ) (image : Grid) :
    ∀ (l : List ℕ) (st : DState),
      fsLoopRows cs w image l st = ntLoopRows cs w image l st := by
  intro l
  induction l with
  | nil => intro st; rfl
  | cons j rest ih =>
    intro st
    simp only [fsLoopRows, ntLoopRows, fsLoopRow_eq_nt]
    cases ntLoopRow cs w image j (List.range w) st with
    | none => rfl
    | some st' => exact ih st'

lemma dither_fs_eq_nt_aux (image : Grid) (width height : ℕ) (P : List Color) (verbose : Bool) :
    dither_floyd_steinberg image width height P verbose =
      dither_no_touch image width height P verbose := by
  unfold dither_floyd_steinberg dither_no_touch
  rw [fsLoopRows_eq_nt]

/-- C9: `dither_floyd_steinberg` and `dither_no_touch` are extensionally
equal: on every image, palette and verbosity flag they return the same
result, failing (`none`) in exactly the same cases — their source bodies are
identical, both performing the neighbor exclusion and the same error-buffer
writes. -/
theorem fs_eq_noTouch (image : Grid) (width height : ℕ) (P : List Color) (verbose : Bool) :
    dither_floyd_steinberg image width height P verbose =
      dither_no_touch image width height P verbose :=
  dither_fs_eq_nt_aux image width height P verbose

/-! ## C10: the three writes into row `j-1` are dead -/

/-- Two error buffers agree on every cell of row `j` and of all later
rows. -/
def errAgree (j : ℕ) (e1 e2 : ErrGrid) : Prop :=
  ∀ x y, j ≤ y → e1 x y = e2 x y

lemma errAgree_mono {j j' : ℕ} {e1 e2 : ErrGrid} (h : j ≤ j') (ha : errAgree j e1 e2) :
    errAgree j' e1 e2 :=
  fun x y hy => ha x y (le_trans h hy)

/-- Writing into row `j-1` (with `1 ≤ j`) does not change any cell of row
`j` or later. -/
lemma update_prev_row {α : Type} (g : ℕ → ℕ → α) (a j : ℕ) (v : α) (hj : 1 ≤ j) :
    ∀ x y, j ≤ y → update2 g a (j - 1) v x y = g x y := by
  intro x y hy
  simp only [update2]
  rw [if_neg]
  rintro ⟨hx, hy'⟩
  omega

/-- One pixel step: starting from states with equal output images and error
buffers that agree from row `j` on, the full step and the right-only step
fail together or produce states with equal output images and error buffers
that again agree from row `j` on. -/
lemma fs_ro_pixel (cs : List Color) (w : ℕ) (image : Grid) (j i : ℕ)
    (st1 st2 : DState) (hni : st1.newimage = st2.newimage)
    (he : errAgree j st1.error st2.error) :
    (fsProcessPixel cs w image j i st1 = none ∧ roProcessPixel cs w image j i st2 = none) ∨
    (∃ st1' st2', fsProcessPixel cs w image j i st1 = some st1' ∧
      roProcessPixel cs w image j i st2 = some st2' ∧
      st1'.newimage = st2'.newimage ∧ errAgree j st1'.error st2'.error) := by
  have hcol : addQ (toQ (image i j)) (st1.error i j) = addQ (toQ (image i j)) (st2.error i j) := by
    rw [he i j (le_refl j)]
  simp only [fsProcessPixel, roProcessPixel, hni, hcol]
  cases hg : getClosestWithExclusion cs (addQ (toQ (image i j)) (st2.error i j))
      ((if 1 ≤ i then [st2.newimage (i - 1) j] else []) ++
        (if 1 ≤ j then [st2.newimage i (j - 1)] else [])) with
  | none => exact Or.inl ⟨rfl, rfl⟩
  | some nc =>
    right
    refine ⟨_, _, rfl, rfl, rfl, ?_⟩
    intro x y hy
    have hagree1 :
        (if i + 1 < w then
            update2 st1.error (i + 1) j (addQ (st1.error (i + 1) j)
              (scaleQ (7/16) (subQ (addQ (toQ (image i j)) (st2.error i j)) (toQ nc)))) 
          else st1.error) x y =
        (if i + 1 < w then
            update2 st2.error (i + 1) j (addQ (st2.error (i + 1) j)
              (scaleQ (7/16) (subQ (addQ (toQ (image i j)) (st2.error i j)) (toQ nc))))
          else st2.error) x y := by
      by_cases hw : i + 1 < w
      · simp only [if_pos hw, update2]
        by_cases hxy : x = i + 1 ∧ y = j
        · rw [if_pos hxy, if_pos hxy, he (i + 1) j (le_refl j)]
        · rw [if_neg hxy, if_neg hxy]
          exact he x y hy
      · simp only [if_neg hw]
        exact he x y hy
    set v := subQ (addQ (toQ (image i j)) (st2.error i j)) (toQ nc) with hv
    set g1 := (if i + 1 < w then
        update2 st1.error (i + 1) j (addQ (st1.error (i + 1) j) (scaleQ (7/16) v))
      else st1.error) with hg1
    have h2 : (if 1 ≤ i ∧ 1 ≤ j then
        update2 g1 (i - 1) (j - 1) (addQ (g1 (i - 1) (j - 1)) (scaleQ (3/16) v))
      else g1) x y = g1 x y := by
      by_cases hc : 1 ≤ i ∧ 1 ≤ j
      · rw [if_pos hc]
        exact update_prev_row g1 (i - 1) j _ hc.2 x y hy
      · rw [if_neg hc]
    set g2 := (if 1 ≤ i ∧ 1 ≤ j then
        update2 g1 (i - 1) (j - 1) (addQ (g1 (i - 1) (j - 1)) (scaleQ (3/16) v))
      else g1) with hg2
    have h3 : (if 1 ≤ j then
        update2 g2 i (j - 1) (addQ (g2 i (j - 1)) (scaleQ (5/16) v))
      else g2) x y = g2 x y := by
      by_cases hc : 1 ≤ j
      · rw [if_pos hc]
        exact update_prev_row g2 i j _ hc x y hy
      · rw [if_neg hc]
    set g3 := (if 1 ≤ j then
        update2 g2 i (j - 1) (addQ (g2 i (j - 1)) (scaleQ (5/16) v))
      else g2) with hg3
    have h4 : (if i + 1 < w ∧ 1 ≤ j then
        update2 g3 (i + 1) (j - 1) (addQ (g3 (i + 1) (j - 1)) (scaleQ (1/16) v))
      else g3) x y = g3 x y := by
      by_cases hc : i + 1 < w ∧ 1 ≤ j
      · rw [if_pos hc]
        exact update_prev_row g3 (i + 1) j _ hc.2 x y hy
      · rw [if_neg hc]
    calc (if i + 1 < w ∧ 1 ≤ j then
            update2 g3 (i + 1) (j - 1) (addQ (g3 (i + 1) (j - 1)) (scaleQ (1/16) v))
          else g3) x y
        = g3 x y := h4
      _ = g2 x y := h3
      _ = g1 x y := h2
      _ = _ := hagree1

lemma fs_ro_row (cs : List Color) (w : ℕ) (image : Grid) (j : ℕ) :
    ∀ (l : List ℕ) (st1 st2 : DState),
      st1.newimage = st2.newimage → errAgree j st1.error st2.error →
      (fsLoopRow cs w image j l st1 = none ∧ roLoopRow cs w image j l st2 = none) ∨
      (∃ st1' st2', fsLoopRow cs w image j l st1 = some st1' ∧
        roLoopRow cs w image j l st2 = some st2' ∧
        st1'.newimage = st2'.newimage ∧ errAgree j st1'.error st2'.error) := by
  intro l
  induction l with
  | nil =>
    intro st1 st2 hni he
    exact Or.inr ⟨st1, st2, rfl, rfl, hni, he⟩
  | cons i rest ih =>
    intro st1 st2 hni he
    rcases fs_ro_pixel cs w image j i st1 st2 hni he with ⟨h1, h2⟩ | ⟨st1', st2', h1, h2, hni', he'⟩
    · left
      constructor
      · simp [fsLoopRow, h1]
      · simp [roLoopRow, h2]
    · simp only [fsLoopRow, roLoopRow, h1, h2]
      exact ih st1' st2' hni' he'

lemma fs_ro_rows (cs : List Color) (w : ℕ) (image : Grid) :
    ∀ (m j0 : ℕ) (st1 st2 : DState),
      st1.newimage = st2.newimage → errAgree j0 st1.error st2.error →
      (fsLoopRows cs w image (List.range' j0 m) st1 = none ∧
        roLoopRows cs w image (List.range' j0 m) st2 = none) ∨
      (∃ st1' st2', fsLoopRows cs w image (List.range' j0 m) st1 = some st1' ∧
        roLoopRows cs w image (List.range' j0 m) st2 = some st2' ∧
        st1'.newimage = st2'.newimage) := by
  intro m
  induction m with
  | zero =>
    intro j0 st1 st2 hni he
    exact Or.inr ⟨st1, st2, rfl, rfl, hni⟩
  | succ m ih =>
    intro j0 st1 st2 hni he
    have hr : List.range' j0 (m + 1) = j0 :: List.range' (j0 + 1) m := by
      simp [List.range'_succ]
    rw [hr]
    rcases fs_ro_row cs w image j0 (List.range w) st1 st2 hni he with
      ⟨h1, h2⟩ | ⟨st1', st2', h1, h2, hni', he'⟩
    · left
      constructor
      · simp [fsLoopRows, h1]
      · simp [roLoopRows, h2]
    · simp only [fsLoopRows, roLoopRows, h1, h2]
      exact ih (j0 + 1) st1' st2' hni' (errAgree_mono (Nat.le_succ j0) he')

/-- C10: the three residue shares written into row `j-1` land in cells whose
error values have already been consumed, so for every image, palette and
verbosity flag both diffusion strategies compute exactly the same result as
the variant that performs only the `7/16` write to `(i+1, j)`. -/
theorem dead_row_writes_eliminable (image : Grid) (width height : ℕ)
    (P : List Color) (verbose : Bool) :
    dither_floyd_steinberg image width height P verbose =
      dither_right_only image width height P verbose ∧
    dither_no_touch image width height P verbose =
      dither_right_only image width height P verbose := by
  have hmain : dither_floyd_steinberg image width height P verbose =
      dither_right_only image width height P verbose := by
    unfold dither_floyd_steinberg dither_right_only
    rw [List.range_eq_range' height]
    rcases fs_ro_rows P width image height 0 initState initState rfl
        (fun x y hy => rfl) with ⟨h1, h2⟩ | ⟨st1', st2', h1, h2, hni⟩
    · rw [h1, h2]
    · rw [h1, h2]
      simp [hni]
  exact ⟨hmain, by rw [← dither_fs_eq_nt_aux]; exact hmain⟩

/-! ## C5: the no-touch adjacency invariant -/

/-- `(x, y)` comes strictly before scan position `(i, j)` in the row-major
scan order (row `y` before row `j`, or same row and column `x` before
`i`). -/
def processedBefore (j i x y : ℕ) : Prop := y < j ∨ (y = j ∧ x < i)

/-- Invariant carried through a no-touch run: every pixel already processed
differs from its left and top neighbors in the output image. -/
def goodState (w j i : ℕ) (st : DState) : Prop :=
  ∀ x y, x < w → processedBefore j i x y →
    (1 ≤ x → st.newimage x y ≠ st.newimage (x - 1) y) ∧
    (1 ≤ y → st.newimage x y ≠ st.newimage x (y - 1))

lemma update2_self {α : Type} (g : ℕ → ℕ → α) (i j : ℕ) (v : α) :
    update2 g i j v i j = v := by
  simp [update2]

lemma update2_ne {α : Type} (g : ℕ → ℕ → α) (i j : ℕ) (v : α) (x y : ℕ)
    (h : ¬(x = i ∧ y = j)) : update2 g i j v x y = g x y := by
  simp only [update2]
  exact if_neg h

/-- A palette with three pairwise different elements always has an entry
outside a two-element exclusion list. -/
lemma exists_nonexcluded (P E : List Color) (hE : E.length ≤ 2)
    (h3 : ∃ a ∈ P, ∃ b ∈ P, ∃ c ∈ P, a ≠ b ∧ a ≠ c ∧ b ≠ c) :
    ∃ p ∈ P, isin p E = false := by
  obtain ⟨a, ha, b, hb, c, hc, hab, hac, hbc⟩ := h3
  by_contra hcon
  push_neg at hcon
  have key : ∀ p, p ∈ P → p ∈ E := by
    intro p hp
    have hne := hcon p hp
    cases hip : isin p E with
    | false => exact absurd hip hne
    | true => exact (isin_iff_mem p E).mp hip
  have haE := key a ha
  have hbE := key b hb
  have hcE := key c hc
  match E, hE with
  | [], _ => simp at haE
  | [u], _ =>
    simp only [List.mem_singleton] at haE hbE
    exact hab (haE.trans hbE.symm)
  | [u, v], _ =>
    simp only [List.mem_cons, List.mem_singleton, List.not_mem_nil, or_false] at haE hbE hcE
    rcases haE with rfl | rfl <;> rcases hbE with h | h <;> rcases hcE with h' | h' <;>
      simp_all

/-- When some palette entry escapes the exclusion list, the exclusion-aware
search succeeds and returns a non-excluded entry. -/
lemma getClosestWithExclusion_isSome (P E : List Color) (c : QColor)
    (hex : ∃ p ∈ P, isin p E = false) :
    ∃ b, getClosestWithExclusion P c E = some b ∧ isin b E = false := by
  obtain ⟨p, hp, hpE⟩ := hex
  have hpfil : p ∈ P.filter fun q => !isin q E :=
    List.mem_filter.mpr ⟨hp, by simp [hpE]⟩
  obtain ⟨b, l1, l2, heq, hsplit, _, _⟩ :=
    bestLoop_none_spec (fun newcolor => qdist (toQ newcolor) c) _
      (List.ne_nil_of_mem hpfil)
  have hbfil : b ∈ P.filter fun q => !isin q E := by
    rw [hsplit]
    simp
  refine ⟨b, ?_, ?_⟩
  · unfold getClosestWithExclusion
    rw [exclLoop_eq_filter, heq]
    rfl
  · have := (List.mem_filter.mp hbfil).2
    simpa using this

/-- Shape of a successful no-touch pixel step: the output image gains the
chosen color at `(i, j)` and nothing else changes in it. -/
lemma ntProcessPixel_some_shape (P : List Color) (w : ℕ) (image : Grid)
    (j i : ℕ) (st : DState) (b : Color)
    (hb : getClosestWithExclusion P (addQ (toQ (image i j)) (st.error i j))
      ((if 1 ≤ i then [st.newimage (i - 1) j] else []) ++
        (if 1 ≤ j then [st.newimage i (j - 1)] else [])) = some b) :
    ∃ e, ntProcessPixel P w image j i st = some ⟨update2 st.newimage i j b, e⟩ := by
  simp only [ntProcessPixel, hb]
  exact ⟨_, rfl⟩

lemma nt_pixel_good (P : List Color) (w : ℕ) (image : Grid) (j i : ℕ) (st : DState)
    (h3 : ∃ a ∈ P, ∃ b ∈ P, ∃ c ∈ P, a ≠ b ∧ a ≠ c ∧ b ≠ c)
    (hi : i < w) (hg : goodState w j i st) :
    ∃ st', ntProcessPixel P w image j i st = some st' ∧ goodState w j (i + 1) st' := by
  have hElen : ((if 1 ≤ i then [st.newimage (i - 1) j] else []) ++
      (if 1 ≤ j then [st.newimage i (j - 1)] else [])).length ≤ 2 := by
    by_cases h1 : 1 ≤ i <;> by_cases h2 : 1 ≤ j <;> simp [h1, h2]
  obtain ⟨b, hbeq, hbE⟩ := getClosestWithExclusion_isSome P _
    (addQ (toQ (image i j)) (st.error i j)) (exists_nonexcluded P _ hElen h3)
  obtain ⟨e, hrun⟩ := ntProcessPixel_some_shape P w image j i st b hbeq
  refine ⟨_, hrun, ?_⟩
  intro x y hx hproc
  dsimp only
  have hproc' : y < j ∨ (y = j ∧ x < i + 1) := hproc
  by_cases hnew : x = i ∧ y = j
  · obtain ⟨rfl, rfl⟩ := hnew
    constructor
    · intro hx1
      rw [update2_self, update2_ne st.newimage x y b (x - 1) y (by omega)]
      intro heq
      exact (isin_eq_false_iff b _).mp hbE (by simp [hx1, heq])
    · intro hy1
      rw [update2_self, update2_ne st.newimage x y b x (y - 1) (by omega)]
      intro heq
      exact (isin_eq_false_iff b _).mp hbE (by simp [hy1, heq])
  · have hold : y < j ∨ (y = j ∧ x < i) := by
      rcases hproc' with h | ⟨hy, hxlt⟩
      · exact Or.inl h
      · right
        refine ⟨hy, ?_⟩
        rcases Nat.lt_succ_iff_lt_or_eq.mp hxlt with h | rfl
        · exact h
        · exact absurd ⟨rfl, hy⟩ hnew
    obtain ⟨hL, hT⟩ := hg x y hx hold
    constructor
    · intro hx1
      rw [update2_ne st.newimage i j b x y hnew,
        update2_ne st.newimage i j b (x - 1) y (by omega)]
      exact hL hx1
    · intro hy1
      rw [update2_ne st.newimage i j b x y hnew,
        update2_ne st.newimage i j b x (y - 1) (by omega)]
      exact hT hy1

lemma nt_row_good (P : List Color) (w : ℕ) (image : Grid) (j : ℕ)
    (h3 : ∃ a ∈ P, ∃ b ∈ P, ∃ c ∈ P, a ≠ b ∧ a ≠ c ∧ b ≠ c) :
    ∀ (n i0 : ℕ) (st : DState), i0 + n = w → goodState w j i0 st →
      ∃ st', ntLoopRow P w image j (List.range' i0 n) st = some st' ∧
        goodState w j w st' := by
  intro n
  induction n with
  | zero =>
    intro i0 st h0 hg
    have : i0 = w := by omega
    exact ⟨st, rfl, this ▸ hg⟩
  | succ n ih =>
    intro i0 st h0 hg
    have hi0 : i0 < w := by omega
    obtain ⟨st', hrun, hg'⟩ := nt_pixel_good P w image j i0 st h3 hi0 hg
    have hr : List.range' i0 (n + 1) = i0 :: List.range' (i0 + 1) n := by
      simp [List.range'_succ]
    rw [hr]
    simp only [ntLoopRow, hrun]
    exact ih (i0 + 1) st' (by omega) hg'

lemma goodState_next_row (w j : ℕ) (st : DState) (hg : goodState w j w st) :
    goodState w (j + 1) 0 st := by
  intro x y hx hproc
  have h' : y < j + 1 ∨ (y = j + 1 ∧ x < 0) := hproc
  exact hg x y hx (by omega : y < j ∨ (y = j ∧ x < w))

lemma nt_rows_good (P : List Color) (w : ℕ) (image : Grid)
    (h3 : ∃ a ∈ P, ∃ b ∈ P, ∃ c ∈ P, a ≠ b ∧ a ≠ c ∧ b ≠ c) :
    ∀ (m j0 : ℕ) (st : DState), goodState w j0 0 st →
      ∃ st', ntLoopRows P w image (List.range' j0 m) st = some st' ∧
        goodState w (j0 + m) 0 st' := by
  intro m
  induction m with
  | zero =>
    intro j0 st hg
    exact ⟨st, rfl, by rwa [Nat.add_zero]⟩
  | succ m ih =>
    intro j0 st hg
    obtain ⟨st', hrow, hg'⟩ := nt_row_good P w image j0 h3 w 0 st (by omega) (by
      intro x y hx hproc
      exact hg x y hx hproc)
    have hrow' : ntLoopRow P w image j0 (List.range w) st = some st' := by
      rw [List.range_eq_range']
      exact hrow
    have hr : List.range' j0 (m + 1) = j0 :: List.range' (j0 + 1) m := by
      simp [List.range'_succ]
    rw [hr]
    simp only [ntLoopRows, hrow']
    obtain ⟨st'', hrun, hgfin⟩ := ih (j0 + 1) st' (goodState_next_row w j0 st' hg')
    exact ⟨st'', hrun, by rwa [show j0 + (m + 1) = j0 + 1 + m by omega]⟩

/-- C5: on any palette containing at least three pairwise different colors,
`dither_no_touch` completes without error on every grid, and in the result
no pixel equals its left neighbor or its top neighbor. -/
theorem noTouch_no_adjacent_repeats (image : Grid) (width height : ℕ)
    (P : List Color) (verbose : Bool)
    (h3 : ∃ a ∈ P, ∃ b ∈ P, ∃ c ∈ P, a ≠ b ∧ a ≠ c ∧ b ≠ c) :
    ∃ res, dither_no_touch image width height P verbose = some res ∧
      ∀ x y, x < width → y < height →
        (1 ≤ x → res x y ≠ res (x - 1) y) ∧
        (1 ≤ y → res x y ≠ res x (y - 1)) := by
  have hg0 : goodState width 0 0 initState := by
    intro x y hx hproc
    have h' : y < 0 ∨ (y = 0 ∧ x < 0) := hproc
    omega
  obtain ⟨st', hrun, hg⟩ := nt_rows_good P width image h3 height 0 initState hg0
  refine ⟨st'.newimage, ?_, ?_⟩
  · unfold dither_no_touch
    rw [List.range_eq_range', hrun]
    rfl
  · intro x y hx hy
    exact hg x y hx (Or.inl (by omega))

/-- Witness for C5: a 2×2 constant image with the three-color grayscale
palette. -/
theorem noTouch_no_adjacent_repeats_witness :
    ∃ res, dither_no_touch (fun _ _ => (60, 60, 60)) 2 2 palGrayscale false = some res ∧
      ∀ x y, x < 2 → y < 2 →
        (1 ≤ x → res x y ≠ res (x - 1) y) ∧
        (1 ≤ y → res x y ≠ res x (y - 1)) :=
  noTouch_no_adjacent_repeats (fun _ _ => (60, 60, 60)) 2 2 palGrayscale false (by decide)

/-! ## C7: 1×1 grids -/

lemma addQ_zeroQ (a : QColor) : addQ a zeroQ = a := by
  obtain ⟨a1, a2, a3⟩ := a
  simp [addQ, zeroQ]

/-- With an empty exclusion list the exclusion-aware search is the plain
nearest-match search. -/
lemma getClosestWithExclusion_nil (P : List Color) (c : QColor) :
    getClosestWithExclusion P c [] = getClosest P c := by
  unfold getClosestWithExclusion getClosest
  rw [exclLoop_eq_filter]
  congr 1
  simp [isin]

/-- C7: on a 1×1 grid, `dither_closest`, `dither_floyd_steinberg` and
`dither_no_touch` all succeed and produce the same single output pixel,
namely `getClosest` of the original pixel: with no left/top neighbor the
exclusion list is empty and no diffusion target is in range. -/
theorem one_by_one_strategies_agree (image : Grid) (P : List Color)
    (verbose : Bool) (hP : P ≠ []) :
    ∃ b, getClosest P (toQ (image 0 0)) = some b ∧
      (∃ g, dither_closest image 1 1 P verbose = some g ∧ g 0 0 = b) ∧
      (∃ g, dither_floyd_steinberg image 1 1 P verbose = some g ∧ g 0 0 = b) ∧
      (∃ g, dither_no_touch image 1 1 P verbose = some g ∧ g 0 0 = b) := by
  obtain ⟨b, l1, l2, heq, hsplit, hs, hns⟩ :=
    bestLoop_none_spec (fun newcolor => qdist (toQ newcolor) (toQ (image 0 0))) P hP
  have hb : getClosest P (toQ (image 0 0)) = some b := by
    unfold getClosest
    rw [heq]
    rfl
  have hclosest : ∃ g, dither_closest image 1 1 P verbose = some g ∧ g 0 0 = b := by
    refine ⟨update2 image 0 0 b, ?_, update2_self _ _ _ _⟩
    unfold dither_closest
    rw [show List.range 1 = [0] from rfl]
    simp [dcLoopRows, dcLoopRow, dcProcessPixel, hb]
  have hfs : ∃ g, dither_floyd_steinberg image 1 1 P verbose = some g ∧ g 0 0 = b := by
    refine ⟨update2 initState.newimage 0 0 b, ?_, update2_self _ _ _ _⟩
    unfold dither_floyd_steinberg
    rw [show List.range 1 = [0] from rfl]
    have hcol : addQ (toQ (image 0 0)) (initState.error 0 0) = toQ (image 0 0) := by
      simp [initState, addQ_zeroQ]
    simp [fsLoopRows, fsLoopRow, fsProcessPixel, hcol, getClosestWithExclusion_nil, hb]
  have hnt : ∃ g, dither_no_touch image 1 1 P verbose = some g ∧ g 0 0 = b := by
    rw [← dither_fs_eq_nt_aux]
    exact hfs
  exact ⟨b, hb, hclosest, hfs, hnt⟩

/-- The 1×1 image of the repository's own test `test_dither_simple`. -/
def img1 : Grid := fun _ _ => (100, 100, 0)

/-- Witness for C7 at the test palette and the test image. -/
theorem one_by_one_strategies_agree_witness :
    ∃ b, getClosest palTest (toQ (img1 0 0)) = some b ∧
      (∃ g, dither_closest img1 1 1 palTest false = some g ∧ g 0 0 = b) ∧
      (∃ g, dither_floyd_steinberg img1 1 1 palTest false = some g ∧ g 0 0 = b) ∧
      (∃ g, dither_no_touch img1 1 1 palTest false = some g ∧ g 0 0 = b) :=
  one_by_one_strategies_agree img1 palTest false (by decide)

/-! ## C6: per-channel matching equals brute force on the product palette -/

lemma abs_le_sq {a b : ℚ} (h : |a| ≤ |b|) : a ^ 2 ≤ b ^ 2 := by
  rw [← sq_abs a, ← sq_abs b]
  exact pow_le_pow_left (abs_nonneg a) h 2

lemma abs_lt_sq {a b : ℚ} (h : |a| < |b|) : a ^ 2 < b ^ 2 := by
  rw [← sq_abs a, ← sq_abs b]
  exact pow_lt_pow_left h (abs_nonneg a) (by norm_num)

/-- All product-palette entries with red shade `r`. -/
def prodRowsR (shades : List ℤ) (r : ℤ) : List Color :=
  shades.flatMap fun shadeG => shades.map fun shadeB => (r, shadeG, shadeB)

/-- All product-palette entries with red shade `r` and green shade `g`. -/
def prodRowsRG (shades : List ℤ) (r g : ℤ) : List Color :=
  shades.map fun shadeB => (r, g, shadeB)

lemma uniformColors_eq_flatMap (shades : List ℤ) :
    uniformColors shades = shades.flatMap (prodRowsR shades) := rfl

/-- The earliest per-channel minimizer, with its witnessing split of the
shade list. -/
lemma pickShade_spec (shades : List ℤ) (q : ℚ) (h : shades ≠ []) :
    ∃ s A B, pickShade shades q = s ∧ shades = A ++ s :: B ∧
      (∀ a ∈ A, |(s : ℚ) - q| < |(a : ℚ) - q|) ∧
      (∀ a ∈ B, |(s : ℚ) - q| ≤ |(a : ℚ) - q|) := by
  obtain ⟨s, A, B, heq, hsplit, hs, hns⟩ :=
    bestLoop_none_spec (fun (t : ℤ) => |(t : ℚ) - q|) shades h
  refine ⟨s, A, B, ?_, hsplit, hs, hns⟩
  unfold pickShade
  rw [heq]
  rfl

lemma qdist_toQ_triple (r g b3 : ℤ) (c : Color) :
    qdist (toQ (r, g, b3)) (toQ c) =
      ((r : ℚ) - (c.1 : ℚ)) ^ 2 + ((g : ℚ) - (c.2.1 : ℚ)) ^ 2 +
        ((b3 : ℚ) - (c.2.2 : ℚ)) ^ 2 := rfl

/-- C6: on a `UniformColorScheme`, the per-channel independent
nearest-match (`UniformColorScheme.getClosest`) returns exactly the color
the inherited brute-force search (`ColorScheme.getClosest`) returns on the
fully expanded Cartesian-product palette, for every integer input color —
including the tie-breaks: the earliest shade per channel corresponds to the
earliest entry of the R-outer/G-middle/B-inner expansion. -/
theorem uniform_getClosest_eq_bruteforce (shades : List ℤ) (c : Color)
    (h : shades ≠ []) :
    getClosest (uniformColors shades) (toQ c) =
      some (uniformGetClosest shades (toQ c)) := by
  obtain ⟨s1, A1, B1, hp1, hsp1, hs1, hns1⟩ := pickShade_spec shades (toQ c).1 h
  obtain ⟨s2, A2, B2, hp2, hsp2, hs2, hns2⟩ := pickShade_spec shades (toQ c).2.1 h
  obtain ⟨s3, A3, B3, hp3, hsp3, hs3, hns3⟩ := pickShade_spec shades (toQ c).2.2 h
  have hmin1 := split_min (fun (t : ℤ) => |(t : ℚ) - (toQ c).1|) hsp1 hs1 hns1
  have hmin2 := split_min (fun (t : ℤ) => |(t : ℚ) - (toQ c).2.1|) hsp2 hs2 hns2
  have hmin3 := split_min (fun (t : ℤ) => |(t : ℚ) - (toQ c).2.2|) hsp3 hs3 hns3
  have e1 : uniformColors shades = (A1 ++ s1 :: B1).flatMap (prodRowsR shades) := by
    rw [← hsp1]
    rfl
  have e2 : prodRowsR shades s1 = (A2 ++ s2 :: B2).flatMap (prodRowsRG shades s1) := by
    rw [← hsp2]
    rfl
  have e3 : prodRowsRG shades s1 s2 =
      (A3 ++ s3 :: B3).map (fun shadeB => (s1, s2, shadeB)) := by
    rw [← hsp3]
    rfl
  have hsplitFull : uniformColors shades =
      (A1.flatMap (prodRowsR shades) ++
        (A2.flatMap (prodRowsRG shades s1) ++
          A3.map (fun shadeB => (s1, s2, shadeB)))) ++ (s1, s2, s3) ::
        (B3.map (fun shadeB => (s1, s2, shadeB)) ++
          (B2.flatMap (prodRowsRG shades s1) ++ B1.flatMap (prodRowsR shades))) := by
    rw [e1]
    simp only [List.flatMap_append, List.flatMap_cons, e2, e3, List.map_append,
      List.map_cons, List.append_assoc, List.cons_append]
  have hq1 : (toQ c).1 = (c.1 : ℚ) := rfl
  have hq2 : (toQ c).2.1 = (c.2.1 : ℚ) := rfl
  have hq3 : (toQ c).2.2 = (c.2.2 : ℚ) := rfl
  have hstrict : ∀ p ∈ A1.flatMap (prodRowsR shades) ++
      (A2.flatMap (prodRowsRG shades s1) ++
        A3.map (fun shadeB => (s1, s2, shadeB))),
      qdist (toQ (s1, s2, s3)) (toQ c) < qdist (toQ p) (toQ c) := by
    intro p hp
    rcases List.mem_append.mp hp with hp | hp
    · obtain ⟨r, hr, hpF⟩ := List.mem_flatMap.mp hp
      obtain ⟨g, hg, hpG⟩ := List.mem_flatMap.mp hpF
      obtain ⟨b3, hb3, rfl⟩ := List.mem_map.mp hpG
      rw [qdist_toQ_triple, qdist_toQ_triple]
      exact add_lt_add_of_lt_of_le
        (add_lt_add_of_lt_of_le (abs_lt_sq (hq1 ▸ hs1 r hr))
          (abs_le_sq (hq2 ▸ hmin2 g hg)))
        (abs_le_sq (hq3 ▸ hmin3 b3 hb3))
    · rcases List.mem_append.mp hp with hp | hp
      · obtain ⟨g, hg, hpG⟩ := List.mem_flatMap.mp hp
        obtain ⟨b3, hb3, rfl⟩ := List.mem_map.mp hpG
        rw [qdist_toQ_triple, qdist_toQ_triple]
        exact add_lt_add_of_lt_of_le
          (add_lt_add_left (abs_lt_sq (hq2 ▸ hs2 g hg)) _)
          (abs_le_sq (hq3 ▸ hmin3 b3 hb3))
      · obtain ⟨b3, hb3, rfl⟩ := List.mem_map.mp hp
        rw [qdist_toQ_triple, qdist_toQ_triple]
        exact add_lt_add_left (abs_lt_sq (hq3 ▸ hs3 b3 hb3)) _
  have hlax : ∀ p ∈ B3.map (fun shadeB => (s1, s2, shadeB)) ++
      (B2.flatMap (prodRowsRG shades s1) ++ B1.flatMap (prodRowsR shades)),
      qdist (toQ (s1, s2, s3)) (toQ c) ≤ qdist (toQ p) (toQ c) := by
    intro p hp
    rcases List.mem_append.mp hp with hp | hp
    · obtain ⟨b3, hb3, rfl⟩ := List.mem_map.mp hp
      rw [qdist_toQ_triple, qdist_toQ_triple]
      exact add_le_add_left (abs_le_sq (hq3 ▸ hns3 b3 hb3)) _
    · rcases List.mem_append.mp hp with hp | hp
      · obtain ⟨g, hg, hpG⟩ := List.mem_flatMap.mp hp
        obtain ⟨b3, hb3, rfl⟩ := List.mem_map.mp hpG
        rw [qdist_toQ_triple, qdist_toQ_triple]
        exact add_le_add
          (add_le_add_left (abs_le_sq (hq2 ▸ hns2 g hg)) _)
          (abs_le_sq (hq3 ▸ hmin3 b3 hb3))
      · obtain ⟨r, hr, hpF⟩ := List.mem_flatMap.mp hp
        obtain ⟨g, hg, hpG⟩ := List.mem_flatMap.mp hpF
        obtain ⟨b3, hb3, rfl⟩ := List.mem_map.mp hpG
        rw [qdist_toQ_triple, qdist_toQ_triple]
        exact add_le_add
          (add_le_add (abs_le_sq (hq1 ▸ hns1 r hr))
            (abs_le_sq (hq2 ▸ hmin2 g hg)))
          (abs_le_sq (hq3 ▸ hmin3 b3 hb3))
  have hne : uniformColors shades ≠ [] := by
    rw [hsplitFull]
    exact List.append_ne_nil_of_right_ne_nil _ (List.cons_ne_nil _ _)
  obtain ⟨bb, M1, M2, hbeq, hbsplit, hbs, hbns⟩ :=
    bestLoop_none_spec (fun newcolor => qdist (toQ newcolor) (toQ c))
      (uniformColors shades) hne
  have hbbeq : bb = (s1, s2, s3) :=
    firstMin_unique (fun newcolor => qdist (toQ newcolor) (toQ c))
      M1 _ bb (s1, s2, s3) M2 _ (hbsplit.symm.trans hsplitFull) hbs hbns hstrict hlax
  have hug : uniformGetClosest shades (toQ c) = (s1, s2, s3) := by
    unfold uniformGetClosest
    rw [hp1, hp2, hp3]
  unfold getClosest
  rw [hbeq, hug, hbbeq]
  rfl

/-- Witness for C6 at the `blocky` shade list and an off-palette color. -/
theorem uniform_getClosest_eq_bruteforce_witness :
    getClosest (uniformColors [0, 120, 255]) (toQ (97, 300, -4)) =
      some (uniformGetClosest [0, 120, 255] (toQ (97, 300, -4))) :=
  uniform_getClosest_eq_bruteforce [0, 120, 255] (97, 300, -4) (by decide)

/-! ## C1 and C2: concrete evaluations of `dither_floyd_steinberg` -/

/-- A 1×2 all-black image (single column, two rows). -/
def imgBlack : Grid := fun _ _ => (0, 0, 0)

/-- A 1×2 constant gray image. -/
def imgGray60 : Grid := fun _ _ => (60, 60, 60)

/-- C1 (evaluation at the failing input): on the 1×2 gray image with the
test palette, pixel `(0,0)` is quantized to `(100,100,100)` with residue
`(-40,-40,-40) ≠ 0`, yet the error cell of the next-row neighbor `(0,1)` —
which the claim says receives `residue*5/16 = (-25/2,...)` — stays zero;
instead, the step at `(0,1)` adds its `5/16` share into row `0`, whose
pixel was already finalized. -/
theorem fs_diffuses_into_previous_row_bug :
    (fsProcessPixel palTest 1 imgGray60 0 0 initState).map
        (fun st => (st.newimage 0 0, st.error 0 1)) =
      some ((100, 100, 100), zeroQ) ∧
    subQ (addQ (toQ (imgGray60 0 0)) (initState.error 0 0)) (toQ (100, 100, 100)) =
      (-40, -40, -40) ∧
    ((fsProcessPixel palTest 1 imgGray60 0 0 initState).bind
        (fun st1 => fsProcessPixel palTest 1 imgGray60 1 0 st1)).map
        (fun st => (st.error 0 0, st.error 0 2)) =
      some ((75/4, 75/4, 75/4), zeroQ) := by
  refine ⟨?_, ?_, ?_⟩ <;>
    norm_num [fsProcessPixel, getClosestWithExclusion, exclLoop, isin, qdist, toQ,
      addQ, subQ, scaleQ, zeroQ, update2, initState, imgGray60, palTest, Option.bind,
      Prod.ext_iff, Prod.fst_zero, Prod.snd_zero]

/-- C2 (evaluation at the failing input): on a 1×2 all-black image with the
black-and-white palette, the plain nearest match for pixel `(0,1)` (whose
adjusted color is black, the error buffer being zero) is black, yet
`dither_floyd_steinberg` outputs white there: its body excludes the
already-chosen top neighbor exactly as `dither_no_touch` does, instead of
calling the unrestricted `getClosest`. -/
theorem fs_applies_exclusion_bug :
    getClosest palBW (toQ (imgBlack 0 1)) = some (0, 0, 0) ∧
    (dither_floyd_steinberg imgBlack 1 2 palBW false).map (fun g => (g 0 0, g 0 1)) =
      some ((0, 0, 0), (255, 255, 255)) := by
  constructor
  · norm_num [getClosest, bestLoop, qdist, toQ, imgBlack, palBW]
  · rw [show dither_floyd_steinberg imgBlack 1 2 palBW false =
        (fsLoopRows palBW 1 imgBlack [0, 1] initState).map DState.newimage from rfl]
    norm_num [fsLoopRows, fsLoopRow, fsProcessPixel, getClosestWithExclusion,
      exclLoop, isin, qdist, toQ, addQ, subQ, scaleQ, zeroQ, update2, initState,
      imgBlack, palBW, Prod.ext_iff, Prod.fst_zero, Prod.snd_zero,
      show List.range 1 = [0] from rfl]
